import Mathlib

/-!
Verification of the extraction core in `src/parser/src/program_parser.py`
against its specification.

The pure algorithms of the parser are embedded shallowly: text is
`List Char`, Python dictionaries that preserve insertion order are
association lists, the process-wide `_minkrit_cache` global is threaded as
explicit state.  The pieces performed by external collaborators
(network download in `fetch.py`, BeautifulSoup HTML parsing, `re` scans
over arbitrary pages) are modelled by taking their outputs as inputs of the
embedded functions; every transformation the parser itself performs on
those outputs is embedded faithfully.
-/

/-- Python `str.lower` on the alphabets the parser touches: ASCII letters
and the Cyrillic block of the source's literals (`A`-`Z` and `А`-`Я`
(U+0410..U+042F) move down by 0x20, `Ё` (U+0401) maps to `ё` (U+0451);
other characters are unchanged). -/
def toLowerRu (c : Char) : Char :=
  if 0x41 ≤ c.toNat ∧ c.toNat ≤ 0x5A then Char.ofNat (c.toNat + 0x20)
  else if 0x410 ≤ c.toNat ∧ c.toNat ≤ 0x42F then Char.ofNat (c.toNat + 0x20)
  else if c.toNat = 0x401 then Char.ofNat 0x451
  else c

/-- Lower-case a whole text. -/
def lowerStr (s : List Char) : List Char := s.map toLowerRu

/-- Python whitespace (`str.split()`, `str.strip()`, regex `\s`), ASCII part. -/
def isPySpace (c : Char) : Bool :=
  c == ' ' || c == '\t' || c == '\n' || c == '\r' ||
  c == Char.ofNat 0xB || c == Char.ofNat 0xC

/-- `p` starts `s` (Python `s.startswith(p)` on character lists). -/
def leadsWith : List Char → List Char → Bool
  | [], _ => true
  | _ :: _, [] => false
  | a :: p, b :: s => a == b && leadsWith p s

/-- `p` occurs contiguously inside `s`: Python's `p in s` on strings. -/
def containsSeq (p : List Char) : List Char → Bool
  | [] => p.isEmpty
  | c :: t => leadsWith p (c :: t) || containsSeq p t

/-- Characters kept by `re.sub(r'[^а-яёa-z0-9]', '', ·)` in `match_exams`. -/
def isWordCh (c : Char) : Bool :=
  decide ((0x430 ≤ c.toNat ∧ c.toNat ≤ 0x44F) ∨ c.toNat = 0x451 ∨
    (0x61 ≤ c.toNat ∧ c.toNat ≤ 0x7A) ∨ (0x30 ≤ c.toNat ∧ c.toNat ≤ 0x39))

/-- `normalize` from `match_exams` (lines 51-52): lower-case, then drop
every character outside letters and digits. -/
def normalizeName (s : List Char) : List Char := (lowerStr s).filter isWordCh

/-- One entrance-exam requirement, a row of the reference table. -/
structure Exam where
  subject : String
  min_score : Int
deriving DecidableEq

/-- The exam directory: an insertion-ordered mapping from canonical
program name to its exam-requirement list (a Python dict). -/
abbrev Dir := List (String × List Exam)

/-- First pass of `match_exams` (lines 56-60): a single walk over the
directory in iteration order; for each key the exact-normalized test, then
the two-sided containment test, returning that key's exams on the first
hit. -/
def matchLoop1 (nameNorm : List Char) : Dir → Option (List Exam)
  | [] => none
  | (mkName, exams) :: rest =>
    if normalizeName mkName.toList = nameNorm then some exams
    else if containsSeq nameNorm (normalizeName mkName.toList) ||
            containsSeq (normalizeName mkName.toList) nameNorm then some exams
    else matchLoop1 nameNorm rest

/-- Python `str.split()`: split on runs of whitespace, no empty pieces
(accumulator-based worker). -/
def splitWsAux : List Char → List Char → List (List Char)
  | [], acc => if acc.isEmpty then [] else [acc.reverse]
  | c :: rest, acc =>
    if isPySpace c then
      if acc.isEmpty then splitWsAux rest [] else acc.reverse :: splitWsAux rest []
    else splitWsAux rest (c :: acc)

/-- Python `str.split()` on a text. -/
def splitWs (s : List Char) : List (List Char) := splitWsAux s []

/-- Second pass of `match_exams` (lines 62-66): first directory key whose
normalized form contains at least two of the query's retained tokens. -/
def matchLoop2 (words : List (List Char)) : Dir → Option (List Exam)
  | [] => none
  | (mkName, exams) :: rest =>
    if 2 ≤ (words.filter (fun w => containsSeq (normalizeName w) (normalizeName mkName.toList))).length
    then some exams
    else matchLoop2 words rest

/-- `match_exams` (lines 48-68), the directory passed explicitly (it is the
process-wide cached mapping, see `loadMinkrit`). -/
def matchExams (minkrit : Dir) (programName : String) : Option (List Exam) :=
  let nameNorm := normalizeName programName.toList
  match matchLoop1 nameNorm minkrit with
  | some exams => some exams
  | none =>
    let words := (splitWs programName.toList).filter (fun w => 3 < w.length)
    matchLoop2 words minkrit

/-- One call of `load_minkrit` (lines 16-46).  The global `_minkrit_cache`
is threaded as explicit state (`none` = not yet built).  The network
download and the BeautifulSoup scrape of the external page are an
out-of-scope collaborator (spec section 1); their combined outcome at the
moment of the call is the input `ext`: `none` models `download` returning
nothing or the page holding fewer than two tables (both cache `{}`),
`some d` models a successful build of dictionary `d` (which is cached).
Returns (result, new cache). -/
def loadMinkrit (cache : Option Dir) (ext : Option Dir) : Dir × Option Dir :=
  match cache with
  | some d => (d, some d)
  | none =>
    match ext with
    | none => ([], some [])
    | some d => (d, some d)

/-- A sequence of `load_minkrit` calls, each observing the external source
at its own moment; returns the list of results and the final cache. -/
def runCalls (cache : Option Dir) : List (Option Dir) → List Dir × Option Dir
  | [] => ([], cache)
  | e :: es =>
    let r := loadMinkrit cache e
    let rs := runCalls r.2 es
    (r.1 :: rs.1, rs.2)

example : matchExams [("ab", [⟨"s1", 1⟩]), ("a", [⟨"s2", 2⟩])] "a" = some [⟨"s1", 1⟩] := by decide

example : normalizeName "Прикладная Математика!".toList = "прикладнаяматематика".toList := by decide

example : splitWs "  aa bb   c ".toList = ["aa".toList, "bb".toList, "c".toList] := by decide

/-- Per-program configuration (`parse_page` line 147: `config.get(k, ...)`
for slug, name, faculty, codes, category, url; all default to empty). -/
structure Config where
  slug : String := ""
  name : String := ""
  faculty : String := ""
  codes : List String := []
  category : String := ""
  url : String := ""
deriving DecidableEq

/-- The `Program` dataclass (lines 70-95), with Python `int` as `Int` and
optional integers as `Option Int`. -/
structure Program where
  slug : String := ""
  name : String := ""
  faculty : String := ""
  codes : List String := []
  category : String := ""
  url : String := ""
  campus : String := ""
  admission_year : Int := 2025
  retrieved_at : String := ""
  budget_places : Option Int := none
  paid_places : Option Int := none
  duration : String := ""
  form : String := ""
  language : String := ""
  exams : List Exam := []
  description : String := ""
  what_to_study : String := ""
  advantages : String := ""
  career : String := ""
  admission_info : String := ""
  specializations : List String := []
  status : String := "success"
  errors : List String := []
  warnings : List String := []
deriving DecidableEq

/-- Python truthiness of an optional-integer field (`None` and `0` are
falsy). -/
def truthyOptInt : Option Int → Bool
  | none => false
  | some n => n != 0

/-- `REQUIRED_FIELDS` (line 13) with each field's truthiness test, in the
source's iteration order. -/
def requiredFields : List (String × (Program → Bool)) :=
  [("name", fun p => p.name != ""), ("faculty", fun p => p.faculty != ""),
   ("url", fun p => p.url != ""), ("duration", fun p => p.duration != ""),
   ("form", fun p => p.form != ""), ("language", fun p => p.language != "")]

/-- `IMPORTANT_FIELDS` (line 14) with each field's truthiness test, in the
source's iteration order. -/
def importantFields : List (String × (Program → Bool)) :=
  [("budget_places", fun p => truthyOptInt p.budget_places),
   ("exams", fun p => p.exams != ([] : List Exam)),
   ("description", fun p => p.description != "")]

/-- `validate_program` (lines 97-120): append a `missing_required:` /
`missing_important:` code for every falsy field of the two fixed sets,
then derive the ternary status. -/
def validateProgram (p : Program) : Program :=
  let errors := (requiredFields.filter (fun ft => !ft.2 p)).map
    (fun ft => "missing_required:" ++ ft.1)
  let warnings := (importantFields.filter (fun ft => !ft.2 p)).map
    (fun ft => "missing_important:" ++ ft.1)
  let status := if errors != [] then "failed"
    else if warnings != [] then "partial" else "success"
  { p with status := status, errors := errors, warnings := warnings }

/-- Leftmost match of the Python regex `(\d+)\s*M` for one of the literal
markers `M` (none of which starts with a digit or whitespace): scan left to
right; at a digit, the greedy run of digits must be followed, after
optional whitespace, by one of the markers.  Returns the digit run's value
(`int(m.group(1))`). -/
def scanNum (markers : List (List Char)) : List Char → Option Nat
  | [] => none
  | c :: rest =>
    if c.isDigit then
      let after := (c :: rest).dropWhile Char.isDigit
      let afterWs := after.dropWhile isPySpace
      if markers.any (fun m => leadsWith m afterWs) then
        some (((c :: rest).takeWhile Char.isDigit).foldl
          (fun a d => 10 * a + (d.toNat - 0x30)) 0)
      else scanNum markers rest
    else scanNum markers rest

/-- The budget-places extractor (lines 156-157): first integer before
`бюджетн` in the original-case text. -/
def budgetPlacesOf (text : List Char) : Option Int :=
  (scanNum ["бюджетн".toList] text).map Int.ofNat

/-- The paid-places extractor (lines 159-160): first integer before
`платн`. -/
def paidPlacesOf (text : List Char) : Option Int :=
  (scanNum ["платн".toList] text).map Int.ofNat

/-- The f-string of line 165: Slavic numeral agreement computed from the
whole integer (`1` singular, `2..4` few, anything else many). -/
def formatDuration (y : Nat) : String :=
  toString y ++ " " ++ (if y = 1 then "год" else if 2 ≤ y ∧ y ≤ 4 then "года" else "лет")

/-- The duration extractor (lines 162-165): first integer before `года?`
or `лет`, formatted; empty when no match. -/
def durationOf (text : List Char) : String :=
  match scanNum ["год".toList, "лет".toList] text with
  | none => ""
  | some y => formatDuration y

/-- The enrollment-form extractor (lines 167-170): the three labels tested
in fixed order against the lowercased text, first hit wins, empty when
none occurs. -/
def detectForm (textLower : List Char) : String :=
  if containsSeq "очно-заочная".toList textLower then "очно-заочная"
  else if containsSeq "заочная".toList textLower then "заочная"
  else if containsSeq "очная".toList textLower then "очная"
  else ""

/-- The language extractor (lines 172-177): bilingual marker or
co-occurrence, else English marker or phrase, else Russian. -/
def detectLanguage (text textLower : List Char) : String :=
  if containsSeq "RUS+ENG".toList text ||
     (containsSeq "русском".toList textLower && containsSeq "английском".toList textLower)
  then "RUS+ENG"
  else if containsSeq "ENG".toList text ||
          containsSeq "полностью на английском".toList textLower
  then "ENG"
  else "RUS"

example : durationOf "Срок обучения 1 год".toList = "1 год" := by decide
example : durationOf "3 года".toList = "3 года" := by decide
example : durationOf "5 лет".toList = "5 лет" := by decide
example : durationOf "21 год".toList = "21 лет" := by decide
example : detectForm (lowerStr "Форма: Очно-Заочная".toList) = "очно-заочная" := by decide
example : detectLanguage "ENG only".toList (lowerStr "ENG only".toList) = "ENG" := by decide
example : budgetPlacesOf "всего 45 бюджетных мест".toList = some 45 := by decide

/-- Python `str.strip()`. -/
def stripWs (s : List Char) : List Char :=
  ((s.dropWhile isPySpace).reverse.dropWhile isPySpace).reverse

/-- Python `str.strip(chars)`: trim any of `cs` from both ends. -/
def stripChars (cs : List Char) (s : List Char) : List Char :=
  ((s.dropWhile cs.contains).reverse.dropWhile cs.contains).reverse

/-- `re.sub(r'\s+', ' ', t).strip()` (lines 185, 200): collapse whitespace
runs to single spaces and trim the ends. -/
def collapseWs (s : List Char) : List Char := List.intercalate [' '] (splitWs s)

/-- The cleaned page body (scripts, style, nav, header, footer already
decomposed) as a flat list of (tag name, extracted text) elements, each
text being that element's `get_text(' ', strip=True)`.  BeautifulSoup's
sibling iteration over such a flat body is element-order iteration. -/
abbrev Doc := List (String × String)

/-- `soup.get_text(' ', strip=True)` over the flat body: the element texts
joined by single spaces. -/
def pageText (doc : Doc) : List Char :=
  List.intercalate [' '] (doc.map (fun e => e.2.toList))

/-- The sibling walk after `h1` (lines 181-186): first `p`/`div` whose
text exceeds 100 characters, whitespace-collapsed. -/
def descFrom : Doc → String
  | [] => ""
  | (n, t) :: rest =>
    if n = "p" ∨ n = "div" then
      if 100 < t.length then String.mk (collapseWs t.toList) else descFrom rest
    else descFrom rest

/-- The description extractor (lines 179-186): siblings after the first
`h1`; empty when there is no `h1`. -/
def descriptionOf : Doc → String
  | [] => ""
  | (n, _) :: rest => if n = "h1" then descFrom rest else descriptionOf rest

/-- Sibling texts after an `h2`, stopping before the next `h1`/`h2`
(lines 193-199), keeping the nonempty ones. -/
def sectionParts : Doc → List String
  | [] => []
  | (n, t) :: rest =>
    if n = "h1" ∨ n = "h2" then []
    else if t != "" then t :: sectionParts rest else sectionParts rest

/-- One heading's accumulated content (line 200): parts joined by
newlines, whitespace-collapsed. -/
def sectionContent (rest : Doc) : String :=
  String.mk (collapseWs (List.intercalate ['\n'] ((sectionParts rest).map String.toList)))

/-- `(title, content)` for every `h2` in document order (the outer loop of
line 188 with the accumulation of lines 193-200). -/
def sectionsOf : Doc → List (String × String)
  | [] => []
  | (n, t) :: rest =>
    if n = "h2" then (t, sectionContent rest) :: sectionsOf rest
    else sectionsOf rest

/-- `SECTION_PATTERNS['what_to_study']` (lines 132-133). -/
def whatToStudyPats : List String :=
  ["что я буду изучать", "изучать", "о программе", "кого и зачем",
   "во время обучения", "процесс обучения", "учебный план"]

/-- `SECTION_PATTERNS['advantages']` (line 134). -/
def advantagesPats : List String := ["преимущества", "особенности", "почему стоит"]

/-- `SECTION_PATTERNS['career']` (line 135). -/
def careerPats : List String := ["перспективы", "карьер", "после обучения", "трудоустройство"]

/-- `SECTION_PATTERNS['admission_info']` (line 136). -/
def admissionPats : List String :=
  ["поступлен", "нужно знать", "как поступить", "вступительн", "егэ"]

/-- `any(pat in title for pat in patterns)` (line 206). -/
def lexHit (pats : List String) (title : List Char) : Bool :=
  pats.any (fun pa => containsSeq pa.toList title)

/-- The heading denylist of line 190, on the lowercased title. -/
def deniedTitle (title : List Char) : Bool :=
  containsSeq "новости".toList title || containsSeq "партнер".toList title ||
  containsSeq "каталог".toList title

/-- The inner lexicon loop (lines 205-208): in `SECTION_PATTERNS` order,
assign `content` to the first field that is still empty and whose lexicon
matches the title, then break. -/
def lexiconAssign (p : Program) (title : List Char) (content : String) : Program :=
  if p.what_to_study == "" && lexHit whatToStudyPats title then
    { p with what_to_study := content }
  else if p.advantages == "" && lexHit advantagesPats title then
    { p with advantages := content }
  else if p.career == "" && lexHit careerPats title then
    { p with career := content }
  else if p.admission_info == "" && lexHit admissionPats title then
    { p with admission_info := content }
  else p

/-- One iteration of the `h2` loop (lines 188-208) on a precomputed
(title, content) section: denylist, then the under-50-characters discard,
then the lexicon tests. -/
def classifyStep (p : Program) (sec : String × String) : Program :=
  let title := lowerStr sec.1.toList
  if deniedTitle title then p
  else if sec.2.length < 50 then p
  else lexiconAssign p title sec.2

/-- The whole Section Classifier pass over a document's sections. -/
def classifySections (p : Program) (secs : List (String × String)) : Program :=
  secs.foldl classifyStep p

/-- `EXAM_NAMES` (lines 122-129), insertion order preserved. -/
def EXAM_NAMES : List (String × String) :=
  [("математика", "Математика"), ("русский язык", "Русский язык"),
   ("информатика", "Информатика"), ("коммуникационные технологии", "Информатика"),
   ("физика", "Физика"), ("химия", "Химия"), ("биология", "Биология"),
   ("история", "История"), ("обществознание", "Обществознание"),
   ("литература", "Литература"), ("иностранный язык", "Иностранный язык"),
   ("английский язык", "Иностранный язык"), ("география", "География")]

/-- One inline exam match (lines 210-216): group 1 lowercased and
stripped; the first `EXAM_NAMES` key contained in it wins; the canonical
subject is appended (with group 2 as score) unless already present. -/
def examStep (acc : List Exam) (m : String × Int) : List Exam :=
  match EXAM_NAMES.find? (fun kv => containsSeq kv.1.toList (stripWs (lowerStr m.1.toList))) with
  | none => acc
  | some kv =>
    if kv.2 ∈ acc.map Exam.subject then acc
    else acc ++ [{ subject := kv.2, min_score := m.2 }]

/-- The inline exam scan folded over the `re.finditer` matches of line 210
(the regex scan over the raw page text is taken as input: each match is
(group 1, int(group 2))). -/
def collectExams (ms : List (String × Int)) : List Exam := ms.foldl examStep []

/-- The quote characters of `strip('«»"\'')` in line 225. -/
def quoteChars : List Char :=
  [Char.ofNat 0xAB, Char.ofNat 0xBB, Char.ofNat 0x22, Char.ofNat 0x27]

/-- One anchor (lines 223-228): href filter, quote-strip, length window,
topical denylist, then append unless the label is already present. -/
def specStep (acc : List String) (a : String × String) : List String :=
  if containsSeq "/spec_".toList a.1.toList || containsSeq "/spec/".toList a.1.toList then
    let t := String.mk (stripChars quoteChars a.2.toList)
    if 5 < t.length ∧ t.length < 100 ∧
       String.mk (lowerStr t.toList) ∉ ["о специализациях", "общая информация"] then
      if t ∉ acc then acc ++ [t] else acc
    else acc
  else acc

/-- The specialization loop folded over the page's anchors, each given as
(href, `get_text(strip=True)`). -/
def collectSpecs (anchors : List (String × String)) : List String :=
  anchors.foldl specStep []

/-- The exam-directory fallback (lines 218-221): only when no inline exam
was found, ask the matcher; a `None` or empty result leaves the field
unchanged. -/
def examFallback (minkrit : Dir) (p : Program) : Program :=
  if p.exams.isEmpty then
    match matchExams minkrit p.name with
    | some mkExams => if mkExams.isEmpty then p else { p with exams := mkExams }
    | none => p
  else p

/-- The record-assembly part of `parse_page` (lines 139-228, everything
before the final validation).  `doc` is the cleaned flat page body;
`examMatches` are the matches `re.finditer` produced at line 210 on the
page text; `anchors` the (href, text) pairs of lines 223-225; `minkrit`
the process-wide cached directory; `retrievedAt` the clock read of
line 151. -/
def assembleProgram (doc : Doc) (examMatches : List (String × Int))
    (anchors : List (String × String)) (minkrit : Dir) (cfg : Config)
    (campus : String) (admissionYear : Int) (retrievedAt : String) : Program :=
  let text := pageText doc
  let textLower := lowerStr text
  let p : Program :=
    { slug := cfg.slug, name := cfg.name, faculty := cfg.faculty,
      codes := cfg.codes, category := cfg.category, url := cfg.url,
      campus := campus, admission_year := admissionYear,
      retrieved_at := retrievedAt,
      budget_places := budgetPlacesOf text,
      paid_places := paidPlacesOf text,
      duration := durationOf text,
      form := detectForm textLower,
      language := detectLanguage text textLower,
      description := descriptionOf doc }
  let p := classifySections p (sectionsOf doc)
  let p := { p with exams := collectExams examMatches }
  let p := examFallback minkrit p
  { p with specializations := collectSpecs anchors }

/-- The last line of `parse_page` (line 230): the assembled record is
finalized by `validate_program`. -/
def parsePage (doc : Doc) (examMatches : List (String × Int))
    (anchors : List (String × String)) (minkrit : Dir) (cfg : Config)
    (campus : String) (admissionYear : Int) (retrievedAt : String) : Program :=
  validateProgram
    (assembleProgram doc examMatches anchors minkrit cfg campus admissionYear retrievedAt)

/-- One field's coverage entry of the manifest. -/
structure Coverage where
  count : Nat
  total : Nat
  percent : Rat
deriving DecidableEq

/-- The manifest's `statistics` block (lines 254-260); `partial` is not a
legal Lean name, so that key is `partialCount`. -/
structure Statistics where
  total : Nat
  success : Nat
  partialCount : Nat
  failed : Nat
  source_types_html : Nat
  source_types_pdf : Nat
deriving DecidableEq

/-- The manifest (lines 246-264). -/
structure Manifest where
  pipeline_version : String
  created_at : String
  started_at : String
  config_path : String
  output_dir : String
  campus : String
  admission_year : Int
  statistics : Statistics
  field_coverage : List (String × Coverage)
  failed_programs : List (String × List String)
  partial_programs : List (String × List String)
deriving DecidableEq

/-- Python `round(x, 1)` idealized on rationals: one decimal place,
ties-to-even. -/
def round1 (q : Rat) : Rat :=
  let t := q * 10
  let f : Int := t.floor
  ((if t - (f : Rat) < 1/2 then f
    else if 1/2 < t - (f : Rat) then f + 1
    else if f % 2 = 0 then f else f + 1 : Int) : Rat) / 10

/-- Python true division `a / b`, raising `ZeroDivisionError` when the
denominator is zero. -/
def pyDiv (a b : Rat) : Except String Rat :=
  if b = 0 then Except.error "ZeroDivisionError" else Except.ok (a / b)

/-- The `all_fields` list of `create_manifest` (lines 238-240), each with
its `getattr` truthiness test. -/
def allFields : List (String × (Program → Bool)) :=
  [("budget_places", fun r => truthyOptInt r.budget_places),
   ("paid_places", fun r => truthyOptInt r.paid_places),
   ("duration", fun r => r.duration != ""),
   ("form", fun r => r.form != ""),
   ("language", fun r => r.language != ""),
   ("exams", fun r => r.exams != ([] : List Exam)),
   ("description", fun r => r.description != ""),
   ("what_to_study", fun r => r.what_to_study != ""),
   ("advantages", fun r => r.advantages != ""),
   ("career", fun r => r.career != ""),
   ("admission_info", fun r => r.admission_info != ""),
   ("specializations", fun r => r.specializations != ([] : List String))]

/-- `create_manifest` (lines 232-266); the clock read of line 248 is the
`createdAt` input.  Line 244 divides by `len(results)` unconditionally,
so the computation is `Except`-valued. -/
def createManifest (results : List Program) (campus : String)
    (admissionYear : Int) (configPath outputDir startedAt createdAt : String) :
    Except String Manifest := do
  let successR := results.filter (fun r => r.status == "success")
  let partialR := results.filter (fun r => r.status == "partial")
  let failedR := results.filter (fun r => r.status == "failed")
  let fieldCoverage ← allFields.mapM (fun ft => do
    let count := (results.filter (fun r => ft.2 r)).length
    let pct ← pyDiv (100 * (count : Rat)) ((results.length : Nat) : Rat)
    Except.ok (ft.1, ({ count := count, total := results.length,
                        percent := round1 pct } : Coverage)))
  Except.ok {
    pipeline_version := "1.0.0",
    created_at := createdAt, started_at := startedAt,
    config_path := configPath, output_dir := outputDir,
    campus := campus, admission_year := admissionYear,
    statistics := { total := results.length, success := successR.length,
                    partialCount := partialR.length, failed := failedR.length,
                    source_types_html := results.length, source_types_pdf := 0 },
    field_coverage := fieldCoverage,
    failed_programs := failedR.map (fun r => (r.slug, r.errors)),
    partial_programs := partialR.map (fun r => (r.slug, r.warnings)) }

example : createManifest [] "moscow" 2025 "cfg" "out" "t0" "t1" =
    Except.error "ZeroDivisionError" := rfl

example : (validateProgram { name := "x" }).status = "failed" := by decide

/-- A cached directory is returned unchanged by every later call, whatever
the external source does meanwhile. -/
theorem runCalls_cached (d : Dir) :
    ∀ es : List (Option Dir), runCalls (some d) es = (List.replicate es.length d, some d)
  | [] => rfl
  | e :: es => by
    simp [runCalls, loadMinkrit, runCalls_cached d es, List.replicate]

/-- C1 (code_bug): on an empty batch, `create_manifest` does not report
`total: 0` with well-defined percentages — line 244 divides
`100 * count` by `len(results) = 0` and the computation raises
`ZeroDivisionError` instead of returning a manifest. -/
theorem create_manifest_empty_batch_divide_fault :
    createManifest [] "moscow" 2025 "cfg" "out" "t0" "t1" =
      Except.error "ZeroDivisionError" := rfl

/-- C3 (counterexample): text containing the literal "21 год" does not
keep the singular form: the extractor formats it as the many form
"21 лет", because line 165 tests the whole value `y == 1`, not the final
numeral. -/
theorem duration_21_many_form_counterexample :
    durationOf "21 год".toList = "21 лет" ∧ "21 лет" ≠ "21 год" :=
  ⟨rfl, by decide⟩

/-- C3 (amended): duration formatting applies Slavic numeral agreement
computed from the whole extracted integer — "1 год" stays "1 год"
(singular), "3 года" stays "3 года" (few), "5 лет" stays "5 лет" (many),
but "21 год" becomes "21 лет": only the exact value 1 is singular, 2-4 take
the few form, every other value the many form, so the boundary is not
re-applied per literal numeral. -/
theorem duration_numeral_agreement :
    durationOf "1 год".toList = "1 год" ∧
    durationOf "3 года".toList = "3 года" ∧
    durationOf "5 лет".toList = "5 лет" ∧
    durationOf "21 год".toList = "21 лет" ∧
    (∀ y : Nat, ¬ y = 1 → ¬ (2 ≤ y ∧ y ≤ 4) → formatDuration y = toString y ++ " " ++ "лет") := by
  refine ⟨rfl, rfl, rfl, rfl, ?_⟩
  intro y h1 h2
  simp [formatDuration, h1, h2]

/-- C6: the exam directory is built at most once per process lifetime.
The first `load_minkrit` call leaves the cache holding exactly its own
result; every later call returns that same mapping unchanged whatever the
external source would yield then; and when the first build fails the
cached mapping is (permanently) empty — the build is never retried. -/
theorem load_minkrit_cached_once (e₁ : Option Dir) (es : List (Option Dir)) :
    (loadMinkrit none e₁).2 = some (loadMinkrit none e₁).1 ∧
    runCalls (loadMinkrit none e₁).2 es =
      (List.replicate es.length (loadMinkrit none e₁).1, some (loadMinkrit none e₁).1) ∧
    (e₁ = none → (loadMinkrit none e₁).1 = []) := by
  cases e₁ <;> simp [loadMinkrit, runCalls_cached]

/-- C9: the Exam Matcher is deterministic and time-independent: once the
first call fixed the directory, a repeated invocation with the same query
sees the identical directory and returns the identical result, regardless
of what the external source would yield at the second call's moment. -/
theorem match_exams_deterministic (cache : Option Dir) (e₁ e₂ : Option Dir) (q : String) :
    matchExams (loadMinkrit (loadMinkrit cache e₁).2 e₂).1 q =
      matchExams (loadMinkrit cache e₁).1 q ∧
    (loadMinkrit (loadMinkrit cache e₁).2 e₂).1 = (loadMinkrit cache e₁).1 := by
  cases cache <;> cases e₁ <;> simp [loadMinkrit]

/-- The per-key test of the first `match_exams` pass: exact normalized
equality, or containment in either direction. -/
def pass1Hit (nameNorm : List Char) (entry : String × List Exam) : Bool :=
  normalizeName entry.1.toList == nameNorm ||
  containsSeq nameNorm (normalizeName entry.1.toList) ||
  containsSeq (normalizeName entry.1.toList) nameNorm

/-- The first pass skips every non-hit key. -/
theorem matchLoop1_skip (nameNorm : List Char) (d₂ : Dir) :
    ∀ d₁ : Dir, (∀ e ∈ d₁, pass1Hit nameNorm e = false) →
      matchLoop1 nameNorm (d₁ ++ d₂) = matchLoop1 nameNorm d₂
  | [], _ => rfl
  | (k, ex) :: d₁, h => by
    have hk := h (k, ex) (List.mem_cons_self _ _)
    simp only [pass1Hit, Bool.or_eq_false_iff, beq_eq_false_iff_ne] at hk
    simp only [List.cons_append, matchLoop1, hk.1.1, if_neg hk.1.1, hk.1.2, hk.2,
      Bool.or_self, if_false]
    exact matchLoop1_skip nameNorm d₂ d₁ (fun e he => h e (List.mem_cons_of_mem _ he))

/-- A hit key at the head of the remaining directory wins. -/
theorem matchLoop1_head_hit (nameNorm : List Char) (k : String) (ex : List Exam) (d : Dir)
    (h : pass1Hit nameNorm (k, ex) = true) :
    matchLoop1 nameNorm ((k, ex) :: d) = some ex := by
  simp only [matchLoop1]
  split_ifs with h1 h2
  · rfl
  · rfl
  · exfalso
    simp only [pass1Hit, Bool.or_eq_true, beq_iff_eq] at h
    rcases h with (h | h) | h
    · exact h1 h
    · exact h2 (by simp only [Bool.or_eq_true]; exact Or.inl h)
    · exact h2 (by simp only [Bool.or_eq_true]; exact Or.inr h)

/-- C2 (amended): the exact and containment tests are applied key by key
in a single pass over the directory in iteration order — the first key
passing either test wins, and only when the whole pass fails is the
token-overlap stage tried.  In particular an exact-match key wins exactly
when no earlier key is an exact or containment match; an exact match on a
later key does not override a containment match on an earlier key. -/
theorem match_exams_single_pass_precedence (d₁ d₂ : Dir) (k : String) (ex : List Exam)
    (q : String)
    (hpre : ∀ e ∈ d₁, pass1Hit (normalizeName q.toList) e = false)
    (hhit : pass1Hit (normalizeName q.toList) (k, ex) = true) :
    matchExams (d₁ ++ (k, ex) :: d₂) q = some ex := by
  have h1 : matchLoop1 (normalizeName q.toList) (d₁ ++ (k, ex) :: d₂) = some ex := by
    rw [matchLoop1_skip _ _ d₁ hpre]
    exact matchLoop1_head_hit _ _ _ _ hhit
  have h2 : matchLoop1 (normalizeName q.data) (d₁ ++ (k, ex) :: d₂) = some ex := h1
  simp [matchExams, h2]

theorem match_exams_single_pass_precedence_witness :
    matchExams [("zz", []), ("ab", [⟨"Физика", 70⟩])] "ab" = some [⟨"Физика", 70⟩] :=
  match_exams_single_pass_precedence [("zz", [])] [] "ab" [⟨"Физика", 70⟩] "ab"
    (by decide) (by decide)

/-- C2 (counterexample): with directory iteration order
`[("ab", …), ("a", …)]` and query "a", the later key "a" is an exact
normalized match while the earlier key "ab" is only a containment match,
yet `match_exams` returns the earlier containment key's exam list, not the
exact key's: the exact stage is not applied to the whole directory before
the containment stage. -/
theorem match_exams_exact_after_containment_counterexample :
    ¬ normalizeName ("ab" : String).toList = normalizeName ("a" : String).toList ∧
    normalizeName ("a" : String).toList = normalizeName ("a" : String).toList ∧
    containsSeq (normalizeName ("a" : String).toList)
      (normalizeName ("ab" : String).toList) = true ∧
    matchExams [("ab", [⟨"s1", 1⟩]), ("a", [⟨"s2", 2⟩])] "a" = some [⟨"s1", 1⟩] ∧
    ¬ matchExams [("ab", [⟨"s1", 1⟩]), ("a", [⟨"s2", 2⟩])] "a" = some [⟨"s2", 2⟩] := by
  refine ⟨by decide, rfl, by decide, by decide, by decide⟩

/-- Mapping a character function preserves the startswith test. -/
theorem leadsWith_map (f : Char → Char) :
    ∀ p s : List Char, leadsWith p s = true → leadsWith (p.map f) (s.map f) = true
  | [], _, _ => rfl
  | _ :: _, [], h => by simp [leadsWith] at h
  | a :: p, b :: s, h => by
    simp only [leadsWith, Bool.and_eq_true, beq_iff_eq] at h
    simp only [List.map_cons, leadsWith, Bool.and_eq_true, beq_iff_eq]
    exact ⟨by rw [h.1], leadsWith_map f p s h.2⟩

/-- Mapping a character function preserves substring containment. -/
theorem containsSeq_map (f : Char → Char) :
    ∀ p s : List Char, containsSeq p s = true → containsSeq (p.map f) (s.map f) = true
  | p, [], h => by
    simp only [containsSeq, List.isEmpty_iff] at h
    simp [containsSeq, h]
  | p, c :: t, h => by
    simp only [containsSeq, Bool.or_eq_true] at h
    simp only [List.map_cons, containsSeq, Bool.or_eq_true]
    rcases h with h | h
    · exact Or.inl (by simpa using leadsWith_map f p (c :: t) h)
    · exact Or.inr (containsSeq_map f p t h)

/-- C8: enrollment-form detection tests `очно-заочная`, `заочная`,
`очная` in that order on the lowercased text and the first hit wins; each
shorter label is a substring of its predecessor, and a text containing the
longer label `очно-заочная` always yields it, never one of its substring
labels. -/
theorem enrollment_form_longer_label_first (text : List Char)
    (h : containsSeq "очно-заочная".toList text = true) :
    detectForm (lowerStr text) = "очно-заочная" ∧
    detectForm (lowerStr text) ≠ "заочная" ∧
    detectForm (lowerStr text) ≠ "очная" ∧
    containsSeq "заочная".toList "очно-заочная".toList = true ∧
    containsSeq "очная".toList "заочная".toList = true := by
  have hfix : ("очно-заочная".toList).map toLowerRu = "очно-заочная".toList := by decide
  have h2 : containsSeq "очно-заочная".toList (lowerStr text) = true := by
    have := containsSeq_map toLowerRu "очно-заочная".toList text h
    rwa [hfix] at this
  have hd : detectForm (lowerStr text) = "очно-заочная" := by
    unfold detectForm
    rw [if_pos h2]
  exact ⟨hd, by rw [hd]; decide, by rw [hd]; decide, by decide, by decide⟩

theorem enrollment_form_longer_label_first_witness :
    detectForm (lowerStr "Форма обучения: очно-заочная".toList) = "очно-заочная" :=
  (enrollment_form_longer_label_first "Форма обучения: очно-заочная".toList (by decide)).1

/-- The error list of `validate_program`, written out field by field in
the `REQUIRED_FIELDS` order. -/
theorem validateProgram_errors (p : Program) :
    (validateProgram p).errors =
      ((if p.name = "" then ["missing_required:name"] else []) ++
       (if p.faculty = "" then ["missing_required:faculty"] else []) ++
       (if p.url = "" then ["missing_required:url"] else []) ++
       (if p.duration = "" then ["missing_required:duration"] else []) ++
       (if p.form = "" then ["missing_required:form"] else []) ++
       (if p.language = "" then ["missing_required:language"] else [])) := by
  by_cases h1 : p.name = "" <;> by_cases h2 : p.faculty = "" <;>
    by_cases h3 : p.url = "" <;> by_cases h4 : p.duration = "" <;>
    by_cases h5 : p.form = "" <;> by_cases h6 : p.language = "" <;>
    simp [validateProgram, requiredFields, h1, h2, h3, h4, h5, h6]

/-- The warning list of `validate_program`, written out field by field in
the `IMPORTANT_FIELDS` order. -/
theorem validateProgram_warnings (p : Program) :
    (validateProgram p).warnings =
      ((if truthyOptInt p.budget_places then [] else ["missing_important:budget_places"]) ++
       (if p.exams = [] then ["missing_important:exams"] else []) ++
       (if p.description = "" then ["missing_important:description"] else [])) := by
  cases h1 : truthyOptInt p.budget_places <;> by_cases h2 : p.exams = ([] : List Exam) <;>
    by_cases h3 : p.description = "" <;>
    simp [validateProgram, importantFields, h1, h2, h3]

/-- The status of `validate_program` as a function of its own error and
warning lists. -/
theorem validateProgram_status (p : Program) :
    (validateProgram p).status =
      (if (validateProgram p).errors = [] then
        (if (validateProgram p).warnings = [] then "success" else "partial")
       else "failed") := by
  have hs : (validateProgram p).status =
      (if (validateProgram p).errors != [] then "failed"
       else if (validateProgram p).warnings != [] then "partial" else "success") := rfl
  rw [hs]
  rcases eq_or_ne (validateProgram p).errors [] with he | he <;>
    rcases eq_or_ne (validateProgram p).warnings [] with hw | hw <;>
    simp [he, hw]

/-- `validate_program` writes only status, errors and warnings. -/
theorem validateProgram_fields (p : Program) :
    (validateProgram p).name = p.name ∧ (validateProgram p).faculty = p.faculty ∧
    (validateProgram p).url = p.url ∧ (validateProgram p).duration = p.duration ∧
    (validateProgram p).form = p.form ∧ (validateProgram p).language = p.language ∧
    (validateProgram p).budget_places = p.budget_places ∧
    (validateProgram p).exams = p.exams ∧
    (validateProgram p).description = p.description ∧
    (validateProgram p).career = p.career ∧
    (validateProgram p).specializations = p.specializations :=
  ⟨rfl, rfl, rfl, rfl, rfl, rfl, rfl, rfl, rfl, rfl, rfl⟩

/-- The error list is empty exactly when every required field is truthy. -/
theorem validateProgram_errors_nil (p : Program) :
    ((validateProgram p).errors = []) ↔
      ¬(p.name = "" ∨ p.faculty = "" ∨ p.url = "" ∨ p.duration = "" ∨
        p.form = "" ∨ p.language = "") := by
  rw [validateProgram_errors]
  by_cases h1 : p.name = "" <;> by_cases h2 : p.faculty = "" <;>
    by_cases h3 : p.url = "" <;> by_cases h4 : p.duration = "" <;>
    by_cases h5 : p.form = "" <;> by_cases h6 : p.language = "" <;>
    simp [h1, h2, h3, h4, h5, h6]

/-- The warning list is empty exactly when every important field is
truthy. -/
theorem validateProgram_warnings_nil (p : Program) :
    ((validateProgram p).warnings = []) ↔
      ¬(truthyOptInt p.budget_places = false ∨ p.exams = [] ∨ p.description = "") := by
  rw [validateProgram_warnings]
  cases h1 : truthyOptInt p.budget_places <;> by_cases h2 : p.exams = ([] : List Exam) <;>
    by_cases h3 : p.description = "" <;> simp [h1, h2, h3]

/-- C4: for every validated record, `failed` holds exactly when one of the
six required fields is empty; with zero errors, `partial` holds exactly
when one of the three important fields is empty/falsy, and otherwise the
status is `success`; and the error and warning lists hold exactly the
per-field `missing_required:` / `missing_important:` codes. -/
theorem validate_status_iff (p : Program) :
    ((validateProgram p).status = "failed" ↔
      (p.name = "" ∨ p.faculty = "" ∨ p.url = "" ∨ p.duration = "" ∨
       p.form = "" ∨ p.language = "")) ∧
    ((validateProgram p).errors = [] →
      ((validateProgram p).status = "partial" ↔
        (truthyOptInt p.budget_places = false ∨ p.exams = [] ∨ p.description = ""))) ∧
    ((validateProgram p).errors = [] →
      ¬(truthyOptInt p.budget_places = false ∨ p.exams = [] ∨ p.description = "") →
      (validateProgram p).status = "success") ∧
    (validateProgram p).errors =
      ((if p.name = "" then ["missing_required:name"] else []) ++
       (if p.faculty = "" then ["missing_required:faculty"] else []) ++
       (if p.url = "" then ["missing_required:url"] else []) ++
       (if p.duration = "" then ["missing_required:duration"] else []) ++
       (if p.form = "" then ["missing_required:form"] else []) ++
       (if p.language = "" then ["missing_required:language"] else [])) ∧
    (validateProgram p).warnings =
      ((if truthyOptInt p.budget_places then [] else ["missing_important:budget_places"]) ++
       (if p.exams = [] then ["missing_important:exams"] else []) ++
       (if p.description = "" then ["missing_important:description"] else [])) := by
  have hst := validateProgram_status p
  have hen := validateProgram_errors_nil p
  have hwn := validateProgram_warnings_nil p
  refine ⟨?_, ?_, ?_, validateProgram_errors p, validateProgram_warnings p⟩
  · rw [hst]
    rcases eq_or_ne (validateProgram p).errors [] with he | he
    · rw [if_pos he]
      have hd := hen.mp he
      constructor
      · intro h
        exfalso
        split_ifs at h <;> exact absurd h (by decide)
      · intro h
        exact absurd h hd
    · rw [if_neg he]
      have hd : (p.name = "" ∨ p.faculty = "" ∨ p.url = "" ∨ p.duration = "" ∨
          p.form = "" ∨ p.language = "") := by
        by_contra hnd
        exact he (hen.mpr hnd)
      simp [hd]
  · intro he
    rw [hst, if_pos he]
    rcases eq_or_ne (validateProgram p).warnings [] with hw | hw
    · rw [if_pos hw]
      have hnd := hwn.mp hw
      constructor
      · intro h
        exact absurd h (by decide)
      · intro h
        exact absurd h hnd
    · rw [if_neg hw]
      have hd : (truthyOptInt p.budget_places = false ∨ p.exams = [] ∨
          p.description = "") := by
        by_contra hnd
        exact hw (hwn.mpr hnd)
      simp [hd]
  · intro he hnd
    rw [hst, if_pos he, if_pos (hwn.mpr hnd)]

/-- One classifier step writes none of language, exams, specializations,
name. -/
theorem classifyStep_fields (p : Program) (sec : String × String) :
    (classifyStep p sec).language = p.language ∧
    (classifyStep p sec).exams = p.exams ∧
    (classifyStep p sec).specializations = p.specializations ∧
    (classifyStep p sec).name = p.name := by
  simp only [classifyStep, lexiconAssign]
  split_ifs <;> exact ⟨rfl, rfl, rfl, rfl⟩

/-- The classifier pass writes none of language, exams, specializations,
name. -/
theorem classifySections_fields :
    ∀ (secs : List (String × String)) (p : Program),
      (classifySections p secs).language = p.language ∧
      (classifySections p secs).exams = p.exams ∧
      (classifySections p secs).specializations = p.specializations ∧
      (classifySections p secs).name = p.name
  | [], _ => ⟨rfl, rfl, rfl, rfl⟩
  | sec :: secs, p => by
    have h1 := classifyStep_fields p sec
    have h2 := classifySections_fields secs (classifyStep p sec)
    simp only [classifySections, List.foldl_cons] at h2 ⊢
    exact ⟨h2.1.trans h1.1, h2.2.1.trans h1.2.1, h2.2.2.1.trans h1.2.2.1,
      h2.2.2.2.trans h1.2.2.2⟩

/-- The exam-directory fallback writes only the exams field. -/
theorem examFallback_fields (minkrit : Dir) (p : Program) :
    (examFallback minkrit p).language = p.language ∧
    (examFallback minkrit p).specializations = p.specializations ∧
    (examFallback minkrit p).career = p.career ∧
    (examFallback minkrit p).name = p.name := by
  unfold examFallback
  split_ifs with h
  · cases hm : matchExams minkrit p.name with
    | none => exact ⟨rfl, rfl, rfl, rfl⟩
    | some mkExams =>
      dsimp only
      split_ifs <;> exact ⟨rfl, rfl, rfl, rfl⟩
  · exact ⟨rfl, rfl, rfl, rfl⟩

/-- The assembled record's language is the language extractor's value. -/
theorem assembleProgram_language (doc : Doc) (ems : List (String × Int))
    (anchors : List (String × String)) (minkrit : Dir) (cfg : Config)
    (campus : String) (year : Int) (ts : String) :
    (assembleProgram doc ems anchors minkrit cfg campus year ts).language =
      detectLanguage (pageText doc) (lowerStr (pageText doc)) := by
  have hf := fun q => (examFallback_fields minkrit q).1
  have hc := fun q => (classifySections_fields (sectionsOf doc) q).1
  simp [assembleProgram, hf, hc]

/-- The language code `missing_required:language` is reported exactly for
an empty language field. -/
theorem missing_language_mem (p : Program) :
    "missing_required:language" ∈ (validateProgram p).errors ↔ p.language = "" := by
  rw [validateProgram_errors]
  by_cases h1 : p.name = "" <;> by_cases h2 : p.faculty = "" <;>
    by_cases h3 : p.url = "" <;> by_cases h4 : p.duration = "" <;>
    by_cases h5 : p.form = "" <;> by_cases h6 : p.language = "" <;>
    simp [h1, h2, h3, h4, h5, h6]

/-- C10: `parse_page` always assigns one of the three language codes (the
Russian-only default when no bilingual or English marker is found), so the
language field of a produced record is never empty and
`missing_required:language` never appears among its errors. -/
theorem parse_page_language_total (doc : Doc) (ems : List (String × Int))
    (anchors : List (String × String)) (minkrit : Dir) (cfg : Config)
    (campus : String) (year : Int) (ts : String) :
    ((parsePage doc ems anchors minkrit cfg campus year ts).language = "RUS" ∨
     (parsePage doc ems anchors minkrit cfg campus year ts).language = "ENG" ∨
     (parsePage doc ems anchors minkrit cfg campus year ts).language = "RUS+ENG") ∧
    "missing_required:language" ∉
      (parsePage doc ems anchors minkrit cfg campus year ts).errors := by
  have hl : (parsePage doc ems anchors minkrit cfg campus year ts).language =
      detectLanguage (pageText doc) (lowerStr (pageText doc)) := by
    unfold parsePage
    rw [(validateProgram_fields _).2.2.2.2.2.1]
    exact assembleProgram_language doc ems anchors minkrit cfg campus year ts
  constructor
  · rw [hl]
    unfold detectLanguage
    split_ifs <;> simp
  · unfold parsePage
    rw [missing_language_mem, assembleProgram_language]
    unfold detectLanguage
    split_ifs <;> decide

/-- A section survives and qualifies for the career field: not denylisted,
content at least 50 characters, career lexicon matches the lowercased
title. -/
def careerHit (sec : String × String) : Bool :=
  !deniedTitle (lowerStr sec.1.toList) && !decide (sec.2.length < 50) &&
  lexHit careerPats (lowerStr sec.1.toList)

/-- A nonempty career field is never overwritten by a classifier step. -/
theorem classifyStep_keeps_career (p : Program) (sec : String × String)
    (h : p.career ≠ "") : (classifyStep p sec).career = p.career := by
  simp only [classifyStep, lexiconAssign]
  split_ifs with hd hl hw ha hc hi <;> try rfl
  simp only [Bool.and_eq_true, beq_iff_eq] at hc
  exact absurd hc.1 h

/-- A section that is not a career hit leaves the career field unchanged. -/
theorem classifyStep_no_hit (p : Program) (sec : String × String)
    (h : careerHit sec = false) : (classifyStep p sec).career = p.career := by
  simp only [classifyStep]
  split_ifs with hd hl <;> try rfl
  have hdf : deniedTitle (lowerStr sec.1.toList) = false :=
    (Bool.eq_false_or_eq_true _).resolve_left hd
  have hlf : decide (sec.2.length < 50) = false := by simpa using hl
  simp only [careerHit, hdf, hlf, Bool.not_false, Bool.true_and] at h
  simp only [lexiconAssign]
  split_ifs with hw ha hc hi <;> try rfl
  rw [h] at hc
  simp at hc

/-- A career hit whose title matches neither of the two earlier lexicons
assigns the accumulated content to an empty career field. -/
theorem classifyStep_career_assign (p : Program) (sec : String × String)
    (hc : p.career = "") (h : careerHit sec = true)
    (hw : lexHit whatToStudyPats (lowerStr sec.1.toList) = false)
    (ha : lexHit advantagesPats (lowerStr sec.1.toList) = false) :
    (classifyStep p sec).career = sec.2 := by
  simp only [careerHit, Bool.and_eq_true, Bool.not_eq_true'] at h
  have hnl : ¬(sec.2.length < 50) := of_decide_eq_false h.1.2
  have hcr : (p.career == "" && lexHit careerPats (lowerStr sec.1.toList)) = true := by
    rw [hc, h.2]
    rfl
  simp only [classifyStep, lexiconAssign]
  split_ifs with h1 h2 h3
  · exact absurd h1 (by rw [h.1.1]; exact Bool.false_ne_true)
  · exfalso
    rw [hw] at h2
    simp at h2
  · exfalso
    rw [ha] at h3
    simp at h3
  · rfl

/-- A nonempty career field survives a whole classifier pass. -/
theorem classifySections_keeps_career :
    ∀ (secs : List (String × String)) (p : Program), p.career ≠ "" →
      (classifySections p secs).career = p.career
  | [], _, _ => rfl
  | sec :: secs, p, h => by
    have h1 := classifyStep_keeps_career p sec h
    have h2 := classifySections_keeps_career secs (classifyStep p sec)
      (by rw [h1]; exact h)
    simp only [classifySections, List.foldl_cons] at h2 ⊢
    exact h2.trans h1

/-- A pass over sections none of which is a career hit leaves the career
field unchanged. -/
theorem classifySections_no_hits :
    ∀ (secs : List (String × String)) (p : Program),
      (∀ s ∈ secs, careerHit s = false) →
      (classifySections p secs).career = p.career
  | [], _, _ => rfl
  | sec :: secs, p, h => by
    have h1 := classifyStep_no_hit p sec (h sec (List.mem_cons_self _ _))
    have h2 := classifySections_no_hits secs (classifyStep p sec)
      (fun s hs => h s (List.mem_cons_of_mem _ hs))
    simp only [classifySections, List.foldl_cons] at h2 ⊢
    exact h2.trans h1

/-- The assembled record's career field is whatever the classifier pass
left in it, starting from the configuration-seeded record (whose career
field is empty). -/
theorem assembleProgram_career (doc : Doc) (ems : List (String × Int))
    (anchors : List (String × String)) (minkrit : Dir) (cfg : Config)
    (campus : String) (year : Int) (ts : String) :
    (assembleProgram doc ems anchors minkrit cfg campus year ts).career =
      (classifySections
        { slug := cfg.slug, name := cfg.name, faculty := cfg.faculty,
          codes := cfg.codes, category := cfg.category, url := cfg.url,
          campus := campus, admission_year := year, retrieved_at := ts,
          budget_places := budgetPlacesOf (pageText doc),
          paid_places := paidPlacesOf (pageText doc),
          duration := durationOf (pageText doc),
          form := detectForm (lowerStr (pageText doc)),
          language := detectLanguage (pageText doc) (lowerStr (pageText doc)),
          description := descriptionOf doc } (sectionsOf doc)).career := by
  have hf := fun q => (examFallback_fields minkrit q).2.2.1
  simp [assembleProgram, hf]

/-- C5: only the first surviving career-matching second-level heading (in
document order) populates the career field — every later heading matching
the already-filled field is ignored — and a heading whose accumulated
content is under 50 characters changes nothing at all, being discarded
before any lexicon test. -/
theorem career_first_heading_wins
    (doc : Doc) (ems : List (String × Int)) (anchors : List (String × String))
    (minkrit : Dir) (cfg : Config) (campus : String) (year : Int) (ts : String)
    (pre rest : List (String × String)) (t c : String)
    (hsecs : sectionsOf doc = pre ++ (t, c) :: rest)
    (hpre : ∀ s ∈ pre, careerHit s = false)
    (hhit : careerHit (t, c) = true)
    (hw : lexHit whatToStudyPats (lowerStr t.toList) = false)
    (ha : lexHit advantagesPats (lowerStr t.toList) = false) :
    (parsePage doc ems anchors minkrit cfg campus year ts).career = c ∧
    (∀ (q : Program) (t' c' : String), c'.length < 50 → classifyStep q (t', c') = q) := by
  constructor
  · have hcl : ∀ p : Program, p.career = "" →
        (classifySections p (sectionsOf doc)).career = c := by
      intro p hp
      rw [hsecs]
      have h1 : (List.foldl classifyStep p pre).career = "" := by
        have := classifySections_no_hits pre p hpre
        simp only [classifySections] at this
        rw [this, hp]
      have h2 : (classifyStep (List.foldl classifyStep p pre) (t, c)).career = c :=
        classifyStep_career_assign _ _ h1 hhit hw ha
      have hcne : c ≠ "" := by
        intro hc0
        rw [hc0] at hhit
        simp [careerHit] at hhit
      have h3 := classifySections_keeps_career rest
        (classifyStep (List.foldl classifyStep p pre) (t, c)) (by rw [h2]; exact hcne)
      simp only [classifySections] at h3
      simp only [classifySections, List.foldl_append, List.foldl_cons]
      rw [h3, h2]
    have hpv : (parsePage doc ems anchors minkrit cfg campus year ts).career =
        (assembleProgram doc ems anchors minkrit cfg campus year ts).career := rfl
    rw [hpv, assembleProgram_career]
    exact hcl _ rfl
  · intro q t' c' hlen
    simp [classifyStep, hlen]

theorem career_first_heading_wins_witness :
    (parsePage
      [("h2", "Карьера"),
       ("p", "Выпускники работают аналитиками и инженерами в крупных компаниях"),
       ("h2", "Перспективы"),
       ("p", "Карьерный центр помогает студентам найти работу мечты рядом с домом")]
      [] [] [] {} "moscow" 2025 "t").career =
      "Выпускники работают аналитиками и инженерами в крупных компаниях" :=
  (career_first_heading_wins
    [("h2", "Карьера"),
     ("p", "Выпускники работают аналитиками и инженерами в крупных компаниях"),
     ("h2", "Перспективы"),
     ("p", "Карьерный центр помогает студентам найти работу мечты рядом с домом")]
    [] [] [] {} "moscow" 2025 "t"
    [] [("Перспективы", "Карьерный центр помогает студентам найти работу мечты рядом с домом")]
    "Карьера" "Выпускники работают аналитиками и инженерами в крупных компаниях"
    (by decide) (by decide) (by decide) (by decide) (by decide)).1

/-- The anchor filter of `specStep` without the accumulator-membership
test: the stream of candidate labels in first-seen order. -/
def specLabelOf (a : String × String) : Option String :=
  if containsSeq "/spec_".toList a.1.toList || containsSeq "/spec/".toList a.1.toList then
    let t := String.mk (stripChars quoteChars a.2.toList)
    if 5 < t.length ∧ t.length < 100 ∧
       String.mk (lowerStr t.toList) ∉ ["о специализациях", "общая информация"] then some t
    else none
  else none

/-- All candidate labels of a page's anchors, duplicates included. -/
def specLabels (anchors : List (String × String)) : List String :=
  anchors.filterMap specLabelOf

/-- Keep each label's first occurrence, dropping any label already seen
(the spec's "no duplicates, first-seen order preserved"). -/
def dedupKeepFirst (seen : List String) : List String → List String
  | [] => []
  | x :: xs => if x ∈ seen then dedupKeepFirst seen xs
               else x :: dedupKeepFirst (seen ++ [x]) xs

/-- A specialization step is the label filter followed by the
append-if-absent. -/
theorem specStep_eq (acc : List String) (a : String × String) :
    specStep acc a = (match specLabelOf a with
      | none => acc
      | some t => if t ∉ acc then acc ++ [t] else acc) := by
  simp only [specStep, specLabelOf]
  split_ifs <;> simp_all

/-- The specialization fold is the first-occurrence de-duplication of the
candidate label stream. -/
theorem specFold_eq :
    ∀ (anchors : List (String × String)) (acc : List String),
      anchors.foldl specStep acc = acc ++ dedupKeepFirst acc (specLabels anchors)
  | [], acc => by simp [specLabels, dedupKeepFirst]
  | a :: anchors, acc => by
    rw [List.foldl_cons, specStep_eq]
    cases hl : specLabelOf a with
    | none =>
      rw [specFold_eq anchors acc]
      simp [specLabels, List.filterMap_cons, hl]
    | some t =>
      dsimp only
      by_cases hm : t ∈ acc
      · rw [if_neg (not_not_intro hm), specFold_eq anchors acc]
        simp [specLabels, List.filterMap_cons, hl, dedupKeepFirst, hm]
      · rw [if_pos hm, specFold_eq anchors (acc ++ [t])]
        have hd : dedupKeepFirst acc (t :: List.filterMap specLabelOf anchors) =
            t :: dedupKeepFirst (acc ++ [t]) (List.filterMap specLabelOf anchors) := by
          simp [dedupKeepFirst, hm]
        simp only [specLabels, List.filterMap_cons, hl, hd]
        rw [← List.append_cons]

/-- Membership in the de-duplicated stream: present in the stream and not
already seen. -/
theorem mem_dedupKeepFirst :
    ∀ (l seen : List String) (y : String),
      y ∈ dedupKeepFirst seen l ↔ y ∈ l ∧ y ∉ seen
  | [], seen, y => by simp [dedupKeepFirst]
  | x :: xs, seen, y => by
    simp only [dedupKeepFirst]
    split_ifs with hx
    · rw [mem_dedupKeepFirst xs seen y, List.mem_cons]
      constructor
      · rintro ⟨h1, h2⟩
        exact ⟨Or.inr h1, h2⟩
      · rintro ⟨h1 | h1, h2⟩
        · exact absurd hx (h1 ▸ h2)
        · exact ⟨h1, h2⟩
    · rw [List.mem_cons, mem_dedupKeepFirst xs (seen ++ [x]) y, List.mem_cons]
      constructor
      · rintro (h | ⟨h1, h2⟩)
        · exact ⟨Or.inl h, fun hy => hx (h ▸ hy)⟩
        · refine ⟨Or.inr h1, fun hy => h2 ?_⟩
          simp [hy]
      · rintro ⟨h1 | h1, h2⟩
        · exact Or.inl h1
        · by_cases hxy : y = x
          · exact Or.inl hxy
          · refine Or.inr ⟨h1, fun hy => ?_⟩
            simp only [List.mem_append, List.mem_singleton] at hy
            rcases hy with hy | hy
            · exact h2 hy
            · exact hxy hy

/-- The de-duplicated stream has no duplicates. -/
theorem dedupKeepFirst_nodup :
    ∀ (l seen : List String), (dedupKeepFirst seen l).Nodup
  | [], _ => List.nodup_nil
  | x :: xs, seen => by
    simp only [dedupKeepFirst]
    split_ifs with hx
    · exact dedupKeepFirst_nodup xs seen
    · refine List.Nodup.cons ?_ (dedupKeepFirst_nodup xs (seen ++ [x]))
      intro hmem
      rw [mem_dedupKeepFirst] at hmem
      exact hmem.2 (by simp)

/-- The specialization loop produces exactly the de-duplicated candidate
stream. -/
theorem collectSpecs_eq (anchors : List (String × String)) :
    collectSpecs anchors = dedupKeepFirst [] (specLabels anchors) := by
  have := specFold_eq anchors []
  simpa [collectSpecs] using this

/-- The inline exam fold never creates a duplicate canonical subject. -/
theorem collectExams_fold_nodup :
    ∀ (ms : List (String × Int)) (acc : List Exam),
      (acc.map Exam.subject).Nodup → ((ms.foldl examStep acc).map Exam.subject).Nodup
  | [], _, h => h
  | m :: ms, acc, h => by
    rw [List.foldl_cons]
    refine collectExams_fold_nodup ms (examStep acc m) ?_
    simp only [examStep]
    cases EXAM_NAMES.find?
        (fun kv => containsSeq kv.1.toList (stripWs (lowerStr m.1.toList))) with
    | none => exact h
    | some kv =>
      dsimp only
      split_ifs with hc
      · exact h
      · rw [List.map_append]
        simp only [List.map_cons, List.map_nil]
        rw [List.nodup_append]
        refine ⟨h, List.nodup_singleton _, ?_⟩
        intro x hx hx'
        simp only [List.mem_singleton] at hx'
        subst hx'
        exact hc hx

/-- The first matcher pass only ever returns a list stored in the
directory. -/
theorem matchLoop1_mem (nameNorm : List Char) :
    ∀ (d : Dir) (l : List Exam), matchLoop1 nameNorm d = some l → ∃ k, (k, l) ∈ d
  | [], l, h => by simp [matchLoop1] at h
  | (k, ex) :: d, l, h => by
    simp only [matchLoop1] at h
    split_ifs at h
    · injection h with h
      subst h
      exact ⟨k, List.mem_cons_self _ _⟩
    · injection h with h
      subst h
      exact ⟨k, List.mem_cons_self _ _⟩
    · obtain ⟨k', hk⟩ := matchLoop1_mem nameNorm d l h
      exact ⟨k', List.mem_cons_of_mem _ hk⟩

/-- The token-overlap pass only ever returns a list stored in the
directory. -/
theorem matchLoop2_mem (words : List (List Char)) :
    ∀ (d : Dir) (l : List Exam), matchLoop2 words d = some l → ∃ k, (k, l) ∈ d
  | [], l, h => by simp [matchLoop2] at h
  | (k, ex) :: d, l, h => by
    simp only [matchLoop2] at h
    split_ifs at h
    · injection h with h
      subst h
      exact ⟨k, List.mem_cons_self _ _⟩
    · obtain ⟨k', hk⟩ := matchLoop2_mem words d l h
      exact ⟨k', List.mem_cons_of_mem _ hk⟩

/-- `match_exams` only ever returns a list stored in the directory. -/
theorem matchExams_mem (minkrit : Dir) (q : String) (l : List Exam)
    (h : matchExams minkrit q = some l) : ∃ k, (k, l) ∈ minkrit := by
  simp only [matchExams] at h
  cases h1 : matchLoop1 (normalizeName q.toList) minkrit with
  | some ex =>
    rw [h1] at h
    injection h with h
    subst h
    exact matchLoop1_mem _ minkrit ex h1
  | none =>
    rw [h1] at h
    exact matchLoop2_mem _ minkrit l h

/-- The assembled record's specializations are the anchor fold's output. -/
theorem assembleProgram_specializations (doc : Doc) (ems : List (String × Int))
    (anchors : List (String × String)) (minkrit : Dir) (cfg : Config)
    (campus : String) (year : Int) (ts : String) :
    (assembleProgram doc ems anchors minkrit cfg campus year ts).specializations =
      collectSpecs anchors := by
  simp [assembleProgram]

/-- The assembled record's exams are either the inline collection or one
of the directory's stored lists. -/
theorem assembleProgram_exams_cases (doc : Doc) (ems : List (String × Int))
    (anchors : List (String × String)) (minkrit : Dir) (cfg : Config)
    (campus : String) (year : Int) (ts : String) :
    (assembleProgram doc ems anchors minkrit cfg campus year ts).exams =
      collectExams ems ∨
    ∃ k l, (k, l) ∈ minkrit ∧
      (assembleProgram doc ems anchors minkrit cfg campus year ts).exams = l := by
  have hstep : ∀ p : Program,
      (examFallback minkrit p).exams = p.exams ∨
      ∃ k l, (k, l) ∈ minkrit ∧ (examFallback minkrit p).exams = l := by
    intro p
    unfold examFallback
    split_ifs with h
    · cases hm : matchExams minkrit p.name with
      | none => exact Or.inl rfl
      | some mkExams =>
        dsimp only
        split_ifs with he
        · exact Or.inl rfl
        · obtain ⟨k, hk⟩ := matchExams_mem minkrit p.name mkExams hm
          exact Or.inr ⟨k, mkExams, hk, rfl⟩
    · exact Or.inl rfl
  have hassemble : (assembleProgram doc ems anchors minkrit cfg campus year ts).exams =
      (examFallback minkrit
        { (classifySections
            { slug := cfg.slug, name := cfg.name, faculty := cfg.faculty,
              codes := cfg.codes, category := cfg.category, url := cfg.url,
              campus := campus, admission_year := year, retrieved_at := ts,
              budget_places := budgetPlacesOf (pageText doc),
              paid_places := paidPlacesOf (pageText doc),
              duration := durationOf (pageText doc),
              form := detectForm (lowerStr (pageText doc)),
              language := detectLanguage (pageText doc) (lowerStr (pageText doc)),
              description := descriptionOf doc } (sectionsOf doc))
          with exams := collectExams ems }).exams := by
    simp [assembleProgram]
  rw [hassemble]
  rcases hstep { (classifySections
      { slug := cfg.slug, name := cfg.name, faculty := cfg.faculty,
        codes := cfg.codes, category := cfg.category, url := cfg.url,
        campus := campus, admission_year := year, retrieved_at := ts,
        budget_places := budgetPlacesOf (pageText doc),
        paid_places := paidPlacesOf (pageText doc),
        duration := durationOf (pageText doc),
        form := detectForm (lowerStr (pageText doc)),
        language := detectLanguage (pageText doc) (lowerStr (pageText doc)),
        description := descriptionOf doc } (sectionsOf doc))
      with exams := collectExams ems } with h | ⟨k, l, hk, hl⟩
  · exact Or.inl h
  · exact Or.inr ⟨k, l, hk, hl⟩

/-- C7 (amended): the inline exam collection never holds two entries with
the same canonical subject, and the specializations list is exactly the
first-occurrence de-duplication of the candidate labels (no duplicates;
a label reached via two distinct anchors appears exactly once).  For the
final exams list the guarantee is conditional: when the record falls back
to the exam directory, the stored list is copied as-is, so it is
duplicate-free exactly when the directory entry is. -/
theorem parse_page_dedup (doc : Doc) (ems : List (String × Int))
    (anchors : List (String × String)) (minkrit : Dir) (cfg : Config)
    (campus : String) (year : Int) (ts : String) :
    ((collectExams ems).map Exam.subject).Nodup ∧
    (parsePage doc ems anchors minkrit cfg campus year ts).specializations =
      dedupKeepFirst [] (specLabels anchors) ∧
    (parsePage doc ems anchors minkrit cfg campus year ts).specializations.Nodup ∧
    (∀ lab ∈ specLabels anchors,
      ((parsePage doc ems anchors minkrit cfg campus year ts).specializations.count lab = 1)) ∧
    ((∀ e ∈ minkrit, ((e.2 : List Exam).map Exam.subject).Nodup) →
      ((parsePage doc ems anchors minkrit cfg campus year ts).exams.map Exam.subject).Nodup) := by
  have hspec : (parsePage doc ems anchors minkrit cfg campus year ts).specializations =
      dedupKeepFirst [] (specLabels anchors) := by
    have h1 : (parsePage doc ems anchors minkrit cfg campus year ts).specializations =
        (assembleProgram doc ems anchors minkrit cfg campus year ts).specializations := rfl
    rw [h1, assembleProgram_specializations, collectSpecs_eq]
  have hnodup : (parsePage doc ems anchors minkrit cfg campus year ts).specializations.Nodup := by
    rw [hspec]
    exact dedupKeepFirst_nodup _ _
  refine ⟨by simpa [collectExams] using collectExams_fold_nodup ems [] (by simp),
    hspec, hnodup, ?_, ?_⟩
  · intro lab hlab
    refine List.count_eq_one_of_mem hnodup ?_
    rw [hspec, mem_dedupKeepFirst]
    exact ⟨hlab, by simp⟩
  · intro hmk
    have hex : (parsePage doc ems anchors minkrit cfg campus year ts).exams =
        (assembleProgram doc ems anchors minkrit cfg campus year ts).exams := rfl
    rw [hex]
    rcases assembleProgram_exams_cases doc ems anchors minkrit cfg campus year ts with
      h | ⟨k, l, hk, hl⟩
    · rw [h]
      simpa [collectExams] using collectExams_fold_nodup ems [] (by simp)
    · rw [hl]
      exact hmk (k, l) hk

/-- C7 (counterexample): a record whose exams fall back to a directory
entry that itself lists the same subject twice keeps the duplicate — the
claim's "no two entries with the same subject" fails for every record of
`parse_page` only because the fallback path copies the stored list
verbatim. -/
theorem exams_dup_from_directory_counterexample :
    ¬ (((parsePage [] [] [] [("п", [⟨"Математика", 60⟩, ⟨"Математика", 60⟩])]
          { name := "п" } "moscow" 2025 "t").exams.map Exam.subject).Nodup) := by
  decide
